import Mathlib

/-!
# Session manager with a background cleaner, and the free-tier time limiter

A shallow embedding of `solutions/5-session-cleaner/main.go` and of
`solutions/3-limit-service-time/main.go`.

* Instants and durations are integers counting nanoseconds. `time.Now()` is an
  explicit argument `now` of every operation that reads the clock.
* The Go map `sessions` is an association list without duplicate keys
  (`AList`), so that the number of entries is the number of live keys.
* A Go value of type `map[string]interface{}` is `none` for the nil map and
  `some kvs` for an allocated map; the store never looks inside it.
* Each operation takes the manager and returns its Go results together with
  the manager afterwards.
-/

namespace SessionCleaner

/-! ## Time -/

/-- One second, in nanoseconds (Go: `time.Second`). -/
def Second : Int := 1000000000

/-- Largest value of a Go `time.Duration` (an int64 of nanoseconds). -/
def maxDuration : Int := 2 ^ 63 - 1

/-- Smallest value of a Go `time.Duration`. -/
def minDuration : Int := -(2 ^ 63)

/-- Go `t.Sub(u)`: the duration `t - u`, saturating at the ends of the int64 range. -/
def Sub (t u : Int) : Int :=
  if t - u > maxDuration then maxDuration
  else if t - u < minDuration then minDuration
  else t - u

/-- Go `time.Since(t)`, which is `time.Now().Sub(t)`, with the clock reading `now`. -/
def Since (now t : Int) : Int := Sub now t

/-- The idle time after which a session is cleaned: the `5*time.Second` of `startCleaning`. -/
def TTL : Int := 5 * Second

/-- The period of the cleaner: the `time.Tick(time.Second)` of `startCleaning`. -/
def P : Int := Second

/-! ## Data model -/

/-- Go errors that the session manager hands to its callers. -/
inductive GoError where
  | ErrSessionNotFound
  | other (msg : String)
deriving DecidableEq, Repr

/-- A Go value of type `map[string]interface{}`: `none` is the nil map. -/
abbrev Data (V : Type) := Option (List (String × V))

/-- Go `make(map[string]interface{})`: an allocated map without bindings. -/
def emptyData (V : Type) : Data V := some []

/-- Session stores the session's data. -/
structure Session (V : Type) where
  Data : Data V
  LastUpdated : Int
deriving DecidableEq, Repr

/-- The Go map `map[string]Session`. -/
abbrev Table (V : Type) := AList (fun _ : String => Session V)

/-- SessionManager keeps track of all sessions; the mutex `mu` is not state of
a call that runs alone and appears only in the interleaving model below. -/
structure SessionManager (V : Type) where
  sessions : Table V
deriving DecidableEq

variable {V : Type}

/-- The table of `NewSessionManager`: `make(map[string]Session)`. -/
def NewSessionManager : SessionManager V := ⟨∅⟩

/-- The test of the cleaner on one session: `time.Since(session.LastUpdated) > 5*time.Second`. -/
def expired (now : Int) (session : Session V) : Bool :=
  decide (Since now session.LastUpdated > 5 * Second)

/-- One iteration of the `range` loop of `startCleaning`: delete the session when it is expired. -/
def cleanEntry (now : Int) (sessions : Table V) (e : (_ : String) × Session V) : Table V :=
  if expired now e.2 then sessions.erase e.1 else sessions

/-- One pass of the loop body of `startCleaning` after a tick, between `Lock` and
`Unlock`: the `range` loop over all sessions. The loop only ever deletes the
entry it is visiting, so it visits exactly the entries present at its start.
The clock reading `now` is the one instant of the pass. -/
def cleanPass (now : Int) (m : SessionManager V) : SessionManager V :=
  ⟨m.sessions.entries.foldl (cleanEntry now) m.sessions⟩

/-- A finite prefix of the endless loop of `startCleaning`: one pass per tick, in the order of the ticks. -/
def startCleaning (ticks : List Int) (m : SessionManager V) : SessionManager V :=
  ticks.foldl (fun acc now => cleanPass now acc) m

/-- CreateSession creates a new session and returns the sessionID. The pair
`gen` is what the call of `MakeSessionID()` returned; the map write that follows does
not look whether the key is already in the map. -/
def CreateSession (m : SessionManager V) (gen : String × Option GoError) (now : Int) :
    (String × Option GoError) × SessionManager V :=
  match gen.2 with
  | some err => (("", some err), m)
  | none => ((gen.1, none), ⟨m.sessions.insert gen.1 ⟨emptyData V, now⟩⟩)

/-- GetSessionData returns data related to session if sessionID is found, errors otherwise. -/
def GetSessionData (m : SessionManager V) (sessionID : String) :
    (Data V × Option GoError) × SessionManager V :=
  match m.sessions.lookup sessionID with
  | none => ((none, some GoError.ErrSessionNotFound), m)
  | some session => ((session.Data, none), m)

/-- The first statement of `UpdateSessionData`: `_, ok := m.sessions[sessionID]`, read before the mutex is taken. -/
def updateCheck (m : SessionManager V) (sessionID : String) : Bool :=
  (m.sessions.lookup sessionID).isSome

/-- The write of `UpdateSessionData`, under the mutex: `m.sessions[sessionID] = Session{data, time.Now()}`. -/
def updateWrite (m : SessionManager V) (sessionID : String) (data : Data V) (now : Int) :
    SessionManager V :=
  ⟨m.sessions.insert sessionID ⟨data, now⟩⟩

/-- UpdateSessionData overwrites the old session data with the new one; here the call runs alone. -/
def UpdateSessionData (m : SessionManager V) (sessionID : String) (data : Data V) (now : Int) :
    Option GoError × SessionManager V :=
  if updateCheck m sessionID then (none, updateWrite m sessionID data now)
  else (some GoError.ErrSessionNotFound, m)

/-! ## Runs of the manager: foreground calls and ticks of the cleaner, one after another -/

/-- What can happen to a manager: one of the three calls, or a tick of the cleaner at a given instant. -/
inductive Event (V : Type) where
  | create (gen : String × Option GoError) (now : Int)
  | get (sessionID : String)
  | update (sessionID : String) (data : Data V) (now : Int)
  | tick (now : Int)

/-- The manager after one event. -/
def Event.apply (m : SessionManager V) : Event V → SessionManager V
  | .create gen now => (CreateSession m gen now).2
  | .get sessionID => (GetSessionData m sessionID).2
  | .update sessionID data now => (UpdateSessionData m sessionID data now).2
  | .tick now => cleanPass now m

/-- The manager after a list of events, in order. -/
def run (m : SessionManager V) (es : List (Event V)) : SessionManager V :=
  es.foldl Event.apply m

/-- An event that may write the entry of key `k`: a create whose generator returned `k`
without error, or an update of `k`. -/
def Event.touches (k : String) : Event V → Bool
  | .create gen _ => gen.2.isNone && decide (gen.1 = k)
  | .update sessionID _ _ => decide (sessionID = k)
  | .get _ => false
  | .tick _ => false

/-- The instants `n * P` with `lo < n * P ≤ hi`, in increasing order: the ticks of a cleaner
that runs at every multiple of its period. -/
def ticksBetween (lo hi : Int) : List Int :=
  (List.range (hi / P - lo / P).toNat).map (fun (i : Nat) => (lo / P + 1 + (i : Int)) * P)

/-- The first multiple of the period `P` that lies more than `TTL` after the instant `T`. -/
def removalTime (T : Int) : Int := ((T + TTL) / P + 1) * P

/-- The manager after one call of `CreateSession` for each `(key, now)` in turn, the
generator returning `key` without error, with the list of the results of the calls. -/
def createMany (m : SessionManager V) :
    List (String × Int) → List (String × Option GoError) × SessionManager V
  | [] => ([], m)
  | (key, now) :: rest =>
    let r := CreateSession m (key, none) now
    let rs := createMany r.2 rest
    (r.1 :: rs.1, rs.2)

/-- The example scenario with TTL = 5s and P = 1s: the store is built and the key "k"
created at t = 0, the cleaner ticks at 1s and 2s, "k" is updated at t = 2s with the
payload a = 1, and afterwards only the cleaner runs, at every full second up to `t`. -/
def scenarioAt (t : Int) : SessionManager String :=
  let m1 := (CreateSession NewSessionManager ("k", none) 0).2
  let m2 := startCleaning (ticksBetween 0 (2 * Second)) m1
  let m3 := (UpdateSessionData m2 "k" (some [("a", "1")]) (2 * Second)).2
  startCleaning (ticksBetween (2 * Second) t) m3

/-! ## Interleavings of one call of UpdateSessionData with one pass of the cleaner -/

/-- The two goroutines of the interleaving model. -/
inductive Thread where
  | updater
  | cleaner
deriving DecidableEq, Repr

/-- Program points of a call `UpdateSessionData(sessionID, data)`, one per statement:
the map read and test, `m.mu.Lock()`, the map write, and `return nil` with the
deferred `m.mu.Unlock()`. -/
inductive UpdatePc where
  | check
  | lock
  | write
  | unlock
  | returned (err : Option GoError)
deriving DecidableEq, Repr

/-- Program points of one iteration of the loop of `startCleaning` after its tick:
`sm.mu.Lock()`, the `range` loop, `sm.mu.Unlock()`. -/
inductive CleanPc where
  | lock
  | scan
  | unlock
  | done
deriving DecidableEq, Repr

/-- The shared manager, the holder of its mutex, and where the two goroutines are. -/
structure Config (V : Type) where
  m : SessionManager V
  mu : Option Thread
  upd : UpdatePc
  cln : CleanPc
deriving DecidableEq

/-- One statement of `UpdateSessionData(sessionID, data)`; `none` when the goroutine
is blocked on the mutex or has returned. -/
def stepUpdate (sessionID : String) (data : Data V) (now : Int) (c : Config V) :
    Option (Config V) :=
  match c.upd with
  | .check =>
    if updateCheck c.m sessionID then some { c with upd := .lock }
    else some { c with upd := .returned (some GoError.ErrSessionNotFound) }
  | .lock => if c.mu.isNone then some { c with mu := some .updater, upd := .write } else none
  | .write => some { c with m := updateWrite c.m sessionID data now, upd := .unlock }
  | .unlock => some { c with mu := none, upd := .returned none }
  | .returned _ => none

/-- One statement of the cleaner's iteration; `none` when it is blocked on the mutex or done. -/
def stepClean (now : Int) (c : Config V) : Option (Config V) :=
  match c.cln with
  | .lock => if c.mu.isNone then some { c with mu := some .cleaner, cln := .scan } else none
  | .scan => some { c with m := cleanPass now c.m, cln := .unlock }
  | .unlock => some { c with mu := none, cln := .done }
  | .done => none

/-- One step of the goroutine the scheduler picks, at clock reading `now`. -/
def step (sessionID : String) (data : Data V) (c : Config V) (pick : Thread × Int) :
    Option (Config V) :=
  match pick.1 with
  | .updater => stepUpdate sessionID data pick.2 c
  | .cleaner => stepClean pick.2 c

/-- The configuration after a schedule, when every picked goroutine could take its step. -/
def runSchedule (sessionID : String) (data : Data V) (c : Config V) :
    List (Thread × Int) → Option (Config V)
  | [] => some c
  | pick :: rest =>
    match step sessionID data c pick with
    | none => none
    | some c' => runSchedule sessionID data c' rest

/-- Both goroutines at their first statement, the mutex free. -/
def Config.init (m : SessionManager V) : Config V := ⟨m, none, .check, .lock⟩

end SessionCleaner

namespace LimitServiceTime

/-- The free processing time in seconds: `const MAX_TIME = 10`. -/
def MAX_TIME : Int := 10

/-- The value of an int64 after an arithmetic result `x` wraps around. -/
def wrapInt64 (x : Int) : Int := (x + 2 ^ 63) % 2 ^ 64 - 2 ^ 63

/-- User defines the UserModel; `TimeUsed` is an int64 of seconds. -/
structure User where
  ID : Int
  IsPremium : Bool
  TimeUsed : Int
deriving DecidableEq, Repr

/-- What a call of `HandleRequest` leaves behind: the returned bool, whether
`process()` was started, and the user record afterwards. -/
structure Outcome where
  ret : Bool
  started : Bool
  user : User
deriving DecidableEq, Repr

/-- The `for { select { ... } }` loop of `HandleRequest`. The argument counts the ticks
of the one-second ticker that `select` receives before it receives `done`: with none
left the loop returns true; on a tick it adds one to `TimeUsed` and returns false when
the sum is above `MAX_TIME`. -/
def waitLoop : Nat → User → Bool × User
  | 0, u => (true, u)
  | n + 1, u =>
    let u' : User := { u with TimeUsed := wrapInt64 (u.TimeUsed + 1) }
    if u'.TimeUsed > MAX_TIME then (false, u') else waitLoop n u'

/-- HandleRequest runs the processes requested by users. Returns false if process had
to be killed. `ticks` is the number of ticks the process outlasts. -/
def HandleRequest (ticks : Nat) (u : User) : Outcome :=
  if u.IsPremium then ⟨true, true, u⟩
  else if u.TimeUsed ≥ MAX_TIME then ⟨false, false, u⟩
  else
    let r := waitLoop ticks u
    ⟨r.1, true, r.2⟩

end LimitServiceTime

namespace SessionCleaner

variable {V : Type}

/-! ## Lemmas on the clock and on one pass of the cleaner -/

theorem Since_gt_iff (now t : Int) : Since now t > 5 * Second ↔ now - t > TTL := by
  unfold Since Sub TTL maxDuration minDuration Second
  split_ifs <;> omega

theorem expired_iff (now : Int) (s : Session V) :
    expired now s = true ↔ now - s.LastUpdated > TTL := by
  unfold expired
  rw [decide_eq_true_iff]
  exact Since_gt_iff now s.LastUpdated

theorem lookup_foldl_cleanEntry (now : Int) (k : String)
    (l : List ((_ : String) × Session V)) (acc : Table V) :
    (l.foldl (cleanEntry now) acc).lookup k =
      if (∃ e ∈ l, e.1 = k ∧ expired now e.2 = true) then none else acc.lookup k := by
  induction l generalizing acc with
  | nil => simp
  | cons e l ih =>
    rw [List.foldl_cons, ih]
    by_cases hl : ∃ x ∈ l, x.1 = k ∧ expired now x.2 = true
    · have : ∃ x ∈ e :: l, x.1 = k ∧ expired now x.2 = true := by
        obtain ⟨x, hx, h⟩ := hl
        exact ⟨x, List.mem_cons_of_mem _ hx, h⟩
      rw [if_pos hl, if_pos this]
    · rw [if_neg hl]
      by_cases he : e.1 = k ∧ expired now e.2 = true
      · have : ∃ x ∈ e :: l, x.1 = k ∧ expired now x.2 = true :=
          ⟨e, List.mem_cons_self _ _, he⟩
        rw [if_pos this]
        unfold cleanEntry
        rw [if_pos he.2, ← he.1]
        exact AList.lookup_erase _ _
      · have : ¬ ∃ x ∈ e :: l, x.1 = k ∧ expired now x.2 = true := by
          rintro ⟨x, hx, h⟩
          rcases List.mem_cons.1 hx with rfl | hx
          · exact he h
          · exact hl ⟨x, hx, h⟩
        rw [if_neg this]
        unfold cleanEntry
        split_ifs with hexp
        · have hne : k ≠ e.1 := fun h => he ⟨h.symm, hexp⟩
          exact AList.lookup_erase_ne hne
        · rfl

/-- What one pass of the cleaner does to the entry of a key. -/
theorem lookup_cleanPass (now : Int) (m : SessionManager V) (k : String) :
    (cleanPass now m).sessions.lookup k =
      (m.sessions.lookup k).filter (fun s => !expired now s) := by
  unfold cleanPass
  simp only []
  rw [lookup_foldl_cleanEntry]
  cases hk : m.sessions.lookup k with
  | none =>
    have : ¬ ∃ e ∈ m.sessions.entries, e.1 = k ∧ expired now e.2 = true := by
      rintro ⟨⟨a, b⟩, hx, rfl, -⟩
      have := AList.mem_lookup_iff.2 hx
      rw [hk] at this
      simp at this
    rw [if_neg this]
    rfl
  | some s =>
    have hmem : Sigma.mk k s ∈ m.sessions.entries := AList.mem_lookup_iff.1 (by rw [hk]; rfl)
    by_cases hexp : expired now s = true
    · have : ∃ e ∈ m.sessions.entries, e.1 = k ∧ expired now e.2 = true :=
        ⟨⟨k, s⟩, hmem, rfl, hexp⟩
      rw [if_pos this]
      simp [Option.filter, hexp]
    · have : ¬ ∃ e ∈ m.sessions.entries, e.1 = k ∧ expired now e.2 = true := by
        rintro ⟨⟨a, b⟩, hx, rfl, hb⟩
        have := AList.mem_lookup_iff.2 hx
        rw [hk] at this
        have hbs : b = s := by simpa using this.symm
        exact hexp (hbs ▸ hb)
      rw [if_neg this]
      simp [Option.filter, hexp]

theorem lookup_cleanPass_some (now : Int) (m : SessionManager V) (k : String) (s : Session V)
    (hk : m.sessions.lookup k = some s) :
    (cleanPass now m).sessions.lookup k = if now - s.LastUpdated > TTL then none else some s := by
  rw [lookup_cleanPass, hk]
  by_cases h : now - s.LastUpdated > TTL
  · have := (expired_iff now s).2 h
    simp [Option.filter, this, h]
  · have : expired now s = false := by
      rw [← Bool.not_eq_true]
      exact fun hc => h ((expired_iff now s).1 hc)
    simp [Option.filter, this, h]

theorem lookup_cleanPass_none (now : Int) (m : SessionManager V) (k : String)
    (hk : m.sessions.lookup k = none) : (cleanPass now m).sessions.lookup k = none := by
  rw [lookup_cleanPass, hk]
  rfl

theorem lookup_startCleaning_keep (ticks : List Int) (m : SessionManager V) (k : String)
    (s : Session V) (hk : m.sessions.lookup k = some s)
    (h : ∀ now ∈ ticks, now ≤ s.LastUpdated + TTL) :
    (startCleaning ticks m).sessions.lookup k = some s := by
  induction ticks generalizing m with
  | nil => exact hk
  | cons now rest ih =>
    unfold startCleaning
    rw [List.foldl_cons]
    apply ih
    · rw [lookup_cleanPass_some now m k s hk, if_neg]
      have := h now (List.mem_cons_self _ _)
      omega
    · exact fun t ht => h t (List.mem_cons_of_mem _ ht)

theorem lookup_updateWrite_self (m : SessionManager V) (k : String) (d : Data V) (now : Int) :
    (updateWrite m k d now).sessions.lookup k = some ⟨d, now⟩ := by
  unfold updateWrite
  exact AList.lookup_insert _

theorem lookup_updateWrite_ne (m : SessionManager V) (k j : String) (d : Data V) (now : Int)
    (h : j ≠ k) : (updateWrite m k d now).sessions.lookup j = m.sessions.lookup j := by
  unfold updateWrite
  exact AList.lookup_insert_ne h

theorem updateCheck_iff (m : SessionManager V) (k : String) :
    updateCheck m k = true ↔ k ∈ m.sessions := by
  unfold updateCheck
  exact AList.lookup_isSome

theorem length_insert_of_mem (t : Table V) (k : String) (s : Session V) (h : k ∈ t) :
    (t.insert k s).entries.length = t.entries.length := by
  have h1 : (t.insert k s).keys.length = t.keys.length := by
    rw [AList.keys_insert, List.length_cons, List.length_erase_of_mem (AList.mem_keys.1 h)]
    have : 0 < t.keys.length := List.length_pos_of_mem (AList.mem_keys.1 h)
    omega
  simpa [AList.keys, List.keys] using h1

theorem length_insert_of_not_mem (t : Table V) (k : String) (s : Session V) (h : k ∉ t) :
    (t.insert k s).entries.length = t.entries.length + 1 := by
  rw [AList.insert_entries_of_neg h, List.length_cons]

/-! ## The claims on single calls -/

/-- C2. One pass of the cleaner at time `now` removes the entry of a key exactly when
`now - LastUpdated > TTL` (5 seconds), leaves every other entry as it was and adds none;
so an entry last updated at `T` survives every pass that runs at a time `now ≤ T + TTL`. -/
theorem cleanPass_removes_iff_idle_gt_TTL (now : Int) (m : SessionManager V) (k : String) :
    TTL = 5 * Second ∧
    (∀ s, m.sessions.lookup k = some s →
      ((cleanPass now m).sessions.lookup k = none ↔ now - s.LastUpdated > TTL) ∧
      (¬ now - s.LastUpdated > TTL → (cleanPass now m).sessions.lookup k = some s) ∧
      (now ≤ s.LastUpdated + TTL → (cleanPass now m).sessions.lookup k = some s)) ∧
    (m.sessions.lookup k = none → (cleanPass now m).sessions.lookup k = none) := by
  refine ⟨rfl, ?_, lookup_cleanPass_none now m k⟩
  intro s hk
  rw [lookup_cleanPass_some now m k s hk]
  refine ⟨?_, ?_, ?_⟩
  · by_cases h : now - s.LastUpdated > TTL <;> simp [h]
  · intro h
    rw [if_neg h]
  · intro h
    rw [if_neg (by omega)]

/-- C2, at a table with one entry last updated at 2s: the pass at 7s keeps it, the pass at 7s + 1ns removes it. -/
theorem cleanPass_removes_iff_idle_gt_TTL_witness :
    (cleanPass (7 * Second) (⟨AList.singleton "k" ⟨some [], 2 * Second⟩⟩ :
        SessionManager String)).sessions.lookup "k" = some ⟨some [], 2 * Second⟩ ∧
    (cleanPass (7 * Second + 1) (⟨AList.singleton "k" ⟨some [], 2 * Second⟩⟩ :
        SessionManager String)).sessions.lookup "k" = none :=
  ⟨((cleanPass_removes_iff_idle_gt_TTL (7 * Second)
      (⟨AList.singleton "k" ⟨some [], 2 * Second⟩⟩ : SessionManager String) "k").2.1
      ⟨some [], 2 * Second⟩ (by decide)).2.2 (by decide),
   ((cleanPass_removes_iff_idle_gt_TTL (7 * Second + 1)
      (⟨AList.singleton "k" ⟨some [], 2 * Second⟩⟩ : SessionManager String) "k").2.1
      ⟨some [], 2 * Second⟩ (by decide)).1.2 (by decide)⟩

/-- C6. `UpdateSessionData(k, d)` returns `ErrSessionNotFound` exactly when `k` is not in
the table, and then the manager is left exactly as it was. -/
theorem UpdateSessionData_notFound_iff (m : SessionManager V) (k : String) (d : Data V)
    (now : Int) :
    ((UpdateSessionData m k d now).1 = some GoError.ErrSessionNotFound ↔ k ∉ m.sessions) ∧
    (k ∉ m.sessions → (UpdateSessionData m k d now).2 = m) := by
  unfold UpdateSessionData
  by_cases h : k ∈ m.sessions
  · rw [if_pos ((updateCheck_iff m k).2 h)]
    simp [h]
  · rw [if_neg (fun hc => h ((updateCheck_iff m k).1 hc))]
    simp [h]

/-- C6, on the empty store: the update of "k" fails and the store stays empty. -/
theorem UpdateSessionData_notFound_iff_witness :
    (UpdateSessionData (NewSessionManager : SessionManager String) "k" (some [("a", "1")]) 3).1
      = some GoError.ErrSessionNotFound ∧
    (UpdateSessionData (NewSessionManager : SessionManager String) "k" (some [("a", "1")]) 3).2
      = NewSessionManager :=
  ⟨(UpdateSessionData_notFound_iff NewSessionManager "k" (some [("a", "1")]) 3).1.2 (by decide),
   (UpdateSessionData_notFound_iff NewSessionManager "k" (some [("a", "1")]) 3).2 (by decide)⟩

/-- C7. On a table that contains `k`, `UpdateSessionData(k, d)` at time `now` returns nil;
afterwards `k` maps to the session with payload exactly `d` and `LastUpdated = now`, every
other key has the entry it had, the same keys are present, in the same number, and
`GetSessionData(k)` returns `d` with a nil error. -/
theorem UpdateSessionData_replaces (m : SessionManager V) (k : String) (d : Data V) (now : Int)
    (hk : k ∈ m.sessions) :
    (UpdateSessionData m k d now).1 = none ∧
    (UpdateSessionData m k d now).2.sessions.lookup k = some ⟨d, now⟩ ∧
    (∀ j, j ≠ k →
      (UpdateSessionData m k d now).2.sessions.lookup j = m.sessions.lookup j) ∧
    (∀ j, j ∈ (UpdateSessionData m k d now).2.sessions ↔ j ∈ m.sessions) ∧
    (UpdateSessionData m k d now).2.sessions.entries.length = m.sessions.entries.length ∧
    (GetSessionData (UpdateSessionData m k d now).2 k).1 = (d, none) := by
  have hu : UpdateSessionData m k d now = (none, updateWrite m k d now) := by
    unfold UpdateSessionData
    rw [if_pos ((updateCheck_iff m k).2 hk)]
  rw [hu]
  refine ⟨rfl, lookup_updateWrite_self m k d now,
    fun j hj => lookup_updateWrite_ne m k j d now hj, ?_, ?_, ?_⟩
  · intro j
    simp only [updateWrite, AList.mem_insert]
    constructor
    · rintro (rfl | h)
      · exact hk
      · exact h
    · exact fun h => Or.inr h
  · exact length_insert_of_mem m.sessions k ⟨d, now⟩ hk
  · unfold GetSessionData
    simp only []
    rw [lookup_updateWrite_self]

/-- C7, on a store with two sessions: the update of "k" replaces its payload and leaves "j" alone. -/
theorem UpdateSessionData_replaces_witness :
    (UpdateSessionData (⟨(AList.singleton "j" ⟨some [("b", "2")], 1⟩).insert "k"
        ⟨some [("a", "0")], 0⟩⟩ : SessionManager String) "k" (some [("c", "3")]) 4).2.sessions.lookup "k"
      = some ⟨some [("c", "3")], 4⟩ :=
  (UpdateSessionData_replaces (⟨(AList.singleton "j" ⟨some [("b", "2")], 1⟩).insert "k"
      ⟨some [("a", "0")], 0⟩⟩ : SessionManager String) "k" (some [("c", "3")]) 4
    (by decide)).2.1

/-- C9. `GetSessionData(k)` returns the stored payload with a nil error when `k` is present,
and `(nil, ErrSessionNotFound)` exactly when `k` is absent, in particular after a pass of
the cleaner has removed `k`; it leaves the manager unchanged, `LastUpdated` included, so
that the next pass of the cleaner does what it would have done without the read. -/
theorem GetSessionData_spec (m : SessionManager V) (k : String) :
    (∀ s, m.sessions.lookup k = some s → (GetSessionData m k).1 = (s.Data, none)) ∧
    ((GetSessionData m k).1 = (none, some GoError.ErrSessionNotFound) ↔ k ∉ m.sessions) ∧
    ((GetSessionData m k).1.2 = some GoError.ErrSessionNotFound ↔ k ∉ m.sessions) ∧
    (∀ s now, m.sessions.lookup k = some s → now - s.LastUpdated > TTL →
      (GetSessionData (cleanPass now m) k).1 = (none, some GoError.ErrSessionNotFound)) ∧
    (GetSessionData m k).2 = m ∧
    (∀ now, cleanPass now (GetSessionData m k).2 = cleanPass now m) := by
  have hsame : (GetSessionData m k).2 = m := by
    unfold GetSessionData
    cases m.sessions.lookup k <;> rfl
  refine ⟨?_, ?_, ?_, ?_, hsame, fun now => by rw [hsame]⟩
  · intro s hs
    unfold GetSessionData
    rw [hs]
  · unfold GetSessionData
    cases hk : m.sessions.lookup k with
    | none => simpa using AList.lookup_eq_none.1 hk
    | some s =>
      have : k ∈ m.sessions := AList.lookup_isSome.1 (by rw [hk]; rfl)
      simp [this]
  · unfold GetSessionData
    cases hk : m.sessions.lookup k with
    | none => simpa using AList.lookup_eq_none.1 hk
    | some s =>
      have : k ∈ m.sessions := AList.lookup_isSome.1 (by rw [hk]; rfl)
      simp [this]
  · intro s now hs hexp
    unfold GetSessionData
    rw [lookup_cleanPass_some now m k s hs, if_pos hexp]

/-- C9, on a store with one session last updated at 0: the read returns its payload, and
after the pass at 6s the read returns `ErrSessionNotFound`. -/
theorem GetSessionData_spec_witness :
    (GetSessionData (⟨AList.singleton "k" ⟨some [("a", "1")], 0⟩⟩ : SessionManager String) "k").1
      = (some [("a", "1")], none) ∧
    (GetSessionData (cleanPass (6 * Second)
      (⟨AList.singleton "k" ⟨some [("a", "1")], 0⟩⟩ : SessionManager String)) "k").1
      = (none, some GoError.ErrSessionNotFound) :=
  ⟨(GetSessionData_spec (⟨AList.singleton "k" ⟨some [("a", "1")], 0⟩⟩ : SessionManager String)
      "k").1 ⟨some [("a", "1")], 0⟩ (by decide),
   (GetSessionData_spec (⟨AList.singleton "k" ⟨some [("a", "1")], 0⟩⟩ : SessionManager String)
      "k").2.2.2.1 ⟨some [("a", "1")], 0⟩ (6 * Second) (by decide) (by decide)⟩

/-- C5. When an entry of `k` (created at `T1 = s.LastUpdated`) is updated by
`UpdateSessionData` at `T2`, the update succeeds, and after any passes of the cleaner that
all run at times `≤ T2 + TTL` the entry is still there with the payload and the timestamp
of the update, also when a pass runs after `T1 + TTL`; a pass at time `now` removes the
updated entry exactly when `now - T2 > TTL`, whatever `T1` was. -/
theorem refresh_resets_clock (m : SessionManager V) (k : String) (s : Session V) (d : Data V)
    (T2 : Int) (ticks : List Int) (hk : m.sessions.lookup k = some s)
    (hticks : ∀ now ∈ ticks, now ≤ T2 + TTL) :
    (UpdateSessionData m k d T2).1 = none ∧
    (startCleaning ticks (UpdateSessionData m k d T2).2).sessions.lookup k = some ⟨d, T2⟩ ∧
    (∀ now, (cleanPass now (UpdateSessionData m k d T2).2).sessions.lookup k = none ↔
      now - T2 > TTL) := by
  have hmem : k ∈ m.sessions := AList.lookup_isSome.1 (by rw [hk]; rfl)
  have hu : UpdateSessionData m k d T2 = (none, updateWrite m k d T2) := by
    unfold UpdateSessionData
    rw [if_pos ((updateCheck_iff m k).2 hmem)]
  rw [hu]
  refine ⟨rfl, ?_, ?_⟩
  · exact lookup_startCleaning_keep ticks _ k ⟨d, T2⟩ (lookup_updateWrite_self m k d T2) hticks
  · intro now
    rw [lookup_cleanPass_some now _ k ⟨d, T2⟩ (lookup_updateWrite_self m k d T2)]
    by_cases h : now - T2 > TTL <;> simp [h]

/-- C5, with creation at 0 and update at 3s: the passes at 6s, 7s and 8s, all after
`0 + TTL`, leave the entry in place. -/
theorem refresh_resets_clock_witness :
    (startCleaning [6 * Second, 7 * Second, 8 * Second]
      (UpdateSessionData (CreateSession (NewSessionManager : SessionManager String)
        ("k", none) 0).2 "k" (some [("a", "1")]) (3 * Second)).2).sessions.lookup "k"
      = some ⟨some [("a", "1")], 3 * Second⟩ :=
  (refresh_resets_clock (CreateSession (NewSessionManager : SessionManager String)
      ("k", none) 0).2 "k" ⟨some [], 0⟩ (some [("a", "1")]) (3 * Second)
      [6 * Second, 7 * Second, 8 * Second] (by decide) (by decide)).2.1

theorem createMany_spec (keys : List (String × Int)) (m : SessionManager V) :
    (createMany m keys).1 = keys.map (fun x => (x.1, none)) ∧
    (∀ j, j ∈ (createMany m keys).2.sessions ↔ j ∈ m.sessions ∨ j ∈ keys.map Prod.fst) := by
  induction keys generalizing m with
  | nil => simp [createMany]
  | cons x rest ih =>
    obtain ⟨key, now⟩ := x
    obtain ⟨h1, h2⟩ := ih (CreateSession m (key, none) now).2
    refine ⟨?_, ?_⟩
    · simp only [createMany, List.map_cons, h1]
      rfl
    · intro j
      simp only [createMany, h2, List.map_cons, List.mem_cons]
      simp only [CreateSession, AList.mem_insert]
      tauto

theorem createMany_keys_length (keys : List (String × Int)) :
    (createMany (NewSessionManager : SessionManager V) keys).2.sessions.keys.length
      = (keys.map Prod.fst).dedup.length := by
  apply List.Perm.length_eq
  rw [List.perm_ext_iff_of_nodup (AList.keys_nodup _) (List.nodup_dedup _)]
  intro j
  rw [← AList.mem_keys, (createMany_spec keys (NewSessionManager : SessionManager V)).2 j,
    List.mem_dedup]
  simp [NewSessionManager]

/-- C8, as stated, fails on the code. The table holds "j" with a payload and the key
generator returns "j" without error: `CreateSession` returns `("j", nil)`, the table
still has one entry, not two, and the old payload of "j" is replaced by the empty one.
Two creates from the empty store for which the generator returns "j" twice both return
"j" without error and leave one live key. -/
theorem CreateSession_counterexample :
    (CreateSession (⟨AList.singleton "j" ⟨some [("b", "2")], 1⟩⟩ : SessionManager String)
      ("j", none) 5).1 = ("j", none) ∧
    (⟨AList.singleton "j" ⟨some [("b", "2")], 1⟩⟩ : SessionManager String).sessions.entries.length
      = 1 ∧
    (CreateSession (⟨AList.singleton "j" ⟨some [("b", "2")], 1⟩⟩ : SessionManager String)
      ("j", none) 5).2.sessions.entries.length = 1 ∧
    (CreateSession (⟨AList.singleton "j" ⟨some [("b", "2")], 1⟩⟩ : SessionManager String)
      ("j", none) 5).2.sessions.lookup "j" = some ⟨some [], 5⟩ ∧
    (createMany (NewSessionManager : SessionManager String) [("j", 0), ("j", 1)]).1
      = [("j", none), ("j", none)] ∧
    (createMany (NewSessionManager : SessionManager String)
      [("j", 0), ("j", 1)]).2.sessions.keys.length = 1 := by
  refine ⟨?_, ?_, ?_, ?_, ?_, ?_⟩ <;> decide

/-- C8, amended. When the key generator returns `gen = (key, nil)`, `CreateSession` returns
`(key, nil)`; afterwards the table maps the key to a session with the empty payload and
`LastUpdated = now` and every other key has the entry it had. The table has exactly one
entry more when the key was not in the table, and as many entries as before when it was.
Hence `N` successful creates from the table of `NewSessionManager` return the generated
keys without error and leave exactly the generated keys live, as many as there are
different keys among them: `N` when the generated keys are pairwise different. -/
theorem CreateSession_spec (m : SessionManager V) (gen : String × Option GoError) (now : Int)
    (hok : gen.2 = none) :
    (CreateSession m gen now).1 = (gen.1, none) ∧
    (CreateSession m gen now).2.sessions.lookup gen.1 = some ⟨some [], now⟩ ∧
    (∀ j, j ≠ gen.1 →
      (CreateSession m gen now).2.sessions.lookup j = m.sessions.lookup j) ∧
    (gen.1 ∉ m.sessions →
      (CreateSession m gen now).2.sessions.entries.length = m.sessions.entries.length + 1) ∧
    (gen.1 ∈ m.sessions →
      (CreateSession m gen now).2.sessions.entries.length = m.sessions.entries.length) ∧
    (∀ keys : List (String × Int),
      (createMany (NewSessionManager : SessionManager V) keys).1
          = keys.map (fun x => (x.1, none)) ∧
      (∀ j, j ∈ (createMany (NewSessionManager : SessionManager V) keys).2.sessions ↔
        j ∈ keys.map Prod.fst) ∧
      (createMany (NewSessionManager : SessionManager V) keys).2.sessions.keys.length
          = (keys.map Prod.fst).dedup.length ∧
      ((keys.map Prod.fst).Nodup →
        (createMany (NewSessionManager : SessionManager V) keys).2.sessions.keys.length
          = keys.length)) := by
  obtain ⟨key, err⟩ := gen
  simp only at hok
  subst hok
  refine ⟨rfl, ?_, ?_, ?_, ?_, ?_⟩
  · simp only [CreateSession, emptyData]
    exact AList.lookup_insert _
  · intro j hj
    simp only [CreateSession]
    exact AList.lookup_insert_ne hj
  · exact fun hkey => length_insert_of_not_mem m.sessions key _ hkey
  · exact fun hkey => length_insert_of_mem m.sessions key _ hkey
  · intro keys
    obtain ⟨h1, h2⟩ := createMany_spec keys (NewSessionManager : SessionManager V)
    refine ⟨h1, ?_, createMany_keys_length keys, ?_⟩
    · intro j
      rw [h2 j]
      simp [NewSessionManager]
    · intro hnodup
      rw [createMany_keys_length keys, hnodup.dedup, List.length_map]

/-- C8, amended, on a store that holds "j": the generator returns "k", and the store then
holds two sessions; three creates with the keys "a", "b", "c" leave three live keys. -/
theorem CreateSession_spec_witness :
    (CreateSession (⟨AList.singleton "j" ⟨some [("b", "2")], 1⟩⟩ : SessionManager String)
      ("k", none) 5).1 = ("k", none) ∧
    (CreateSession (⟨AList.singleton "j" ⟨some [("b", "2")], 1⟩⟩ : SessionManager String)
      ("k", none) 5).2.sessions.entries.length
      = (⟨AList.singleton "j" ⟨some [("b", "2")], 1⟩⟩ :
          SessionManager String).sessions.entries.length + 1 ∧
    (createMany (NewSessionManager : SessionManager String)
      [("a", 0), ("b", 1), ("c", 2)]).2.sessions.keys.length = 3 :=
  ⟨(CreateSession_spec (⟨AList.singleton "j" ⟨some [("b", "2")], 1⟩⟩ : SessionManager String)
      ("k", none) 5 rfl).1,
   (CreateSession_spec (⟨AList.singleton "j" ⟨some [("b", "2")], 1⟩⟩ : SessionManager String)
      ("k", none) 5 rfl).2.2.2.1 (by decide),
   ((CreateSession_spec (⟨AList.singleton "j" ⟨some [("b", "2")], 1⟩⟩ : SessionManager String)
      ("k", none) 5 rfl).2.2.2.2.2 [("a", 0), ("b", 1), ("c", 2)]).2.2.2 (by decide)⟩

/-! ## Runs with ticks: the bounds on the time of removal -/

theorem lookup_apply_untouched (m : SessionManager V) (k : String) (e : Event V)
    (h : e.touches k = false) :
    (e.apply m).sessions.lookup k = none ∨ (e.apply m).sessions.lookup k = m.sessions.lookup k := by
  cases e with
  | create gen now =>
    obtain ⟨key, err⟩ := gen
    cases err with
    | some err => exact Or.inr rfl
    | none =>
      have hne : k ≠ key := by
        intro hc
        simp [Event.touches, hc] at h
      right
      simp only [Event.apply, CreateSession]
      exact AList.lookup_insert_ne hne
  | get sessionID =>
    right
    simp only [Event.apply, GetSessionData]
    cases m.sessions.lookup sessionID <;> rfl
  | update sessionID data now =>
    have hne : k ≠ sessionID := by
      intro hc
      simp [Event.touches, hc] at h
    right
    simp only [Event.apply, UpdateSessionData]
    split_ifs
    · exact lookup_updateWrite_ne m sessionID k data now hne
    · rfl
  | tick now =>
    simp only [Event.apply]
    cases hk : m.sessions.lookup k with
    | none => exact Or.inl (lookup_cleanPass_none now m k hk)
    | some s =>
      rw [lookup_cleanPass_some now m k s hk]
      split_ifs
      · exact Or.inl rfl
      · exact Or.inr rfl

theorem lookup_run_untouched (es : List (Event V)) (m : SessionManager V) (k : String)
    (h : ∀ e ∈ es, e.touches k = false) :
    (run m es).sessions.lookup k = none ∨ (run m es).sessions.lookup k = m.sessions.lookup k := by
  induction es generalizing m with
  | nil => exact Or.inr rfl
  | cons e rest ih =>
    have h1 := lookup_apply_untouched m k e (h e (List.mem_cons_self _ _))
    have h2 := ih (e.apply m) (fun x hx => h x (List.mem_cons_of_mem _ hx))
    have hrun : run m (e :: rest) = run (e.apply m) rest := rfl
    rw [hrun]
    rcases h2 with h2 | h2
    · exact Or.inl h2
    · rcases h1 with h1 | h1
      · exact Or.inl (h2.trans h1)
      · exact Or.inr (h2.trans h1)

theorem lookup_run_removed (es : List (Event V)) (m : SessionManager V) (k : String)
    (s : Session V) (now : Int) (hk : m.sessions.lookup k = some s)
    (h : ∀ e ∈ es, e.touches k = false) (hmem : Event.tick now ∈ es)
    (hnow : now - s.LastUpdated > TTL) :
    (run m es).sessions.lookup k = none := by
  obtain ⟨l1, l2, rfl⟩ := List.append_of_mem hmem
  have hsplit : run m (l1 ++ Event.tick now :: l2) = run (cleanPass now (run m l1)) l2 := by
    unfold run
    rw [List.foldl_append, List.foldl_cons]
    rfl
  rw [hsplit]
  have hmid : (cleanPass now (run m l1)).sessions.lookup k = none := by
    rcases lookup_run_untouched l1 m k (fun e he => h e (List.mem_append_left _ he)) with h1 | h1
    · exact lookup_cleanPass_none now _ k h1
    · rw [lookup_cleanPass_some now _ k s (h1.trans hk), if_pos hnow]
  rcases lookup_run_untouched l2 (cleanPass now (run m l1)) k
      (fun e he => h e (List.mem_append_right _ (List.mem_cons_of_mem _ he))) with h2 | h2
  · exact h2
  · exact h2.trans hmid

theorem run_ticks (ticks : List Int) (m : SessionManager V) :
    run m (ticks.map Event.tick) = startCleaning ticks m := by
  induction ticks generalizing m with
  | nil => rfl
  | cons now rest ih =>
    have h1 : run m ((now :: rest).map Event.tick) = run (cleanPass now m) (rest.map Event.tick) :=
      rfl
    have h2 : startCleaning (now :: rest) m = startCleaning rest (cleanPass now m) := rfl
    rw [h1, h2, ih]

theorem lookup_startCleaning_removed (ticks : List Int) (m : SessionManager V) (k : String)
    (s : Session V) (now : Int) (hk : m.sessions.lookup k = some s) (hmem : now ∈ ticks)
    (hnow : now - s.LastUpdated > TTL) :
    (startCleaning ticks m).sessions.lookup k = none := by
  rw [← run_ticks]
  refine lookup_run_removed _ m k s now hk ?_ (List.mem_map_of_mem _ hmem) hnow
  intro e he
  obtain ⟨t, -, rfl⟩ := List.mem_map.1 he
  rfl

/-- C3. With TTL = 5s and P = 1s: take a table in which `k` was last updated at
`T = s.LastUpdated`, and any run of calls and cleaner passes in which no call writes `k`
again and which holds the pass of the cleaner at every multiple of `P` after `T` up to
and including `T + TTL + P`. After the run `k` is not in the table; the run holds a pass,
at a time no later than `T + TTL + P` and between 5 and 7 seconds after `T`, that removes
the entry. -/
theorem expiry_upper_bound (m : SessionManager V) (es : List (Event V)) (k : String)
    (s : Session V) (hk : m.sessions.lookup k = some s)
    (hno : ∀ e ∈ es, e.touches k = false)
    (hsched : ∀ n : Int, s.LastUpdated < n * P → n * P ≤ s.LastUpdated + TTL + P →
      Event.tick (n * P) ∈ es) :
    TTL = 5 * Second ∧ P = 1 * Second ∧
    (run m es).sessions.lookup k = none ∧
    ∃ now, Event.tick now ∈ es ∧ now ≤ s.LastUpdated + TTL + P ∧
      (cleanPass now m).sessions.lookup k = none ∧
      5 * Second ≤ now - s.LastUpdated ∧ now - s.LastUpdated ≤ 7 * Second := by
  have hn1 : s.LastUpdated < ((s.LastUpdated + TTL) / P + 1) * P := by
    unfold TTL P Second
    omega
  have hn2 : ((s.LastUpdated + TTL) / P + 1) * P ≤ s.LastUpdated + TTL + P := by
    unfold TTL P Second
    omega
  have hn3 : ((s.LastUpdated + TTL) / P + 1) * P - s.LastUpdated > TTL := by
    unfold TTL P Second
    omega
  have hmem := hsched _ hn1 hn2
  refine ⟨rfl, by unfold P; omega, lookup_run_removed es m k s _ hk hno hmem hn3,
    _, hmem, hn2, ?_, ?_, ?_⟩
  · rw [lookup_cleanPass_some _ m k s hk, if_pos hn3]
  · simp only [TTL, P, Second] at hn3 ⊢
    omega
  · simp only [TTL, P, Second] at hn2 ⊢
    omega

/-- C3, for an entry last updated at 2s, a read, and the passes at 3s, ..., 8s. -/
theorem expiry_upper_bound_witness :
    (run (⟨AList.singleton "k" ⟨some [("a", "1")], 2 * Second⟩⟩ : SessionManager String)
      [Event.tick (3 * P), Event.tick (4 * P), Event.get "k", Event.tick (5 * P),
       Event.tick (6 * P), Event.tick (7 * P), Event.tick (8 * P)]).sessions.lookup "k" = none :=
  (expiry_upper_bound (⟨AList.singleton "k" ⟨some [("a", "1")], 2 * Second⟩⟩ : SessionManager String)
    [Event.tick (3 * P), Event.tick (4 * P), Event.get "k", Event.tick (5 * P),
     Event.tick (6 * P), Event.tick (7 * P), Event.tick (8 * P)] "k"
    ⟨some [("a", "1")], 2 * Second⟩ (by decide) (by decide)
    (by
      intro n h1 h2
      have hn : n = 3 ∨ n = 4 ∨ n = 5 ∨ n = 6 ∨ n = 7 ∨ n = 8 := by
        simp only [TTL, P, Second] at h1 h2
        omega
      rcases hn with rfl | rfl | rfl | rfl | rfl | rfl <;> simp)).2.2.1

theorem mem_ticksBetween (lo hi now : Int) :
    now ∈ ticksBetween lo hi ↔ ∃ n : Int, lo / P < n ∧ n ≤ hi / P ∧ now = n * P := by
  unfold ticksBetween
  simp only [List.mem_map, List.mem_range]
  constructor
  · rintro ⟨i, hlt, rfl⟩
    exact ⟨lo / P + 1 + (i : Int), by omega, by omega, rfl⟩
  · rintro ⟨n, h1, h2, rfl⟩
    refine ⟨(n - lo / P - 1).toNat, by omega, ?_⟩
    have : ((n - lo / P - 1).toNat : Int) = n - lo / P - 1 := by omega
    rw [this]
    congr 1
    omega

theorem removalTime_bounds (T : Int) :
    TTL < removalTime T - T ∧ removalTime T - T ≤ TTL + P := by
  simp only [removalTime, TTL, P, Second]
  omega

theorem lookup_startCleaning_ticksBetween (m : SessionManager V) (k : String) (s : Session V)
    (hi : Int) (hk : m.sessions.lookup k = some s) :
    (startCleaning (ticksBetween s.LastUpdated hi) m).sessions.lookup k =
      if removalTime s.LastUpdated ≤ hi then none else some s := by
  split_ifs with h
  · refine lookup_startCleaning_removed _ m k s (removalTime s.LastUpdated) hk ?_
      (removalTime_bounds s.LastUpdated).1
    rw [mem_ticksBetween]
    refine ⟨(s.LastUpdated + TTL) / P + 1, ?_, ?_, rfl⟩
    · simp only [TTL, P, Second]
      omega
    · simp only [removalTime, TTL, P, Second] at h ⊢
      omega
  · refine lookup_startCleaning_keep _ m k s hk ?_
    intro now hnow
    obtain ⟨n, -, h2, rfl⟩ := (mem_ticksBetween _ _ _).1 hnow
    simp only [removalTime, TTL, P, Second] at h h2 ⊢
    omega

theorem scenarioAt_eq (t : Int) :
    scenarioAt t = startCleaning (ticksBetween (2 * Second) t)
      ⟨AList.singleton "k" ⟨some [("a", "1")], 2 * Second⟩⟩ := by
  have h : (UpdateSessionData (startCleaning (ticksBetween 0 (2 * Second))
      (CreateSession (NewSessionManager : SessionManager String) ("k", none) 0).2)
      "k" (some [("a", "1")]) (2 * Second)).2
      = ⟨AList.singleton "k" ⟨some [("a", "1")], 2 * Second⟩⟩ := by rfl
  unfold scenarioAt
  simp only []
  rw [h]

theorem lookup_scenarioAt (t : Int) :
    (scenarioAt t).sessions.lookup "k" =
      if 8 * Second ≤ t then none else some ⟨some [("a", "1")], 2 * Second⟩ := by
  rw [scenarioAt_eq]
  have h := lookup_startCleaning_ticksBetween
    (⟨AList.singleton "k" ⟨some [("a", "1")], 2 * Second⟩⟩ : SessionManager String) "k"
    ⟨some [("a", "1")], 2 * Second⟩ t (by decide)
  have hr : removalTime (2 * Second) = 8 * Second := by decide
  simp only [hr] at h
  exact h

/-- C4, as stated, fails on the code: in the example scenario (created at 0, updated at
2s) there is no time in [7s, 8s) at which the read of "k" returns `ErrSessionNotFound`;
the pass at 7s, which runs `TTL` after the update, keeps the entry, and the pass that
removes it runs at 8s, which is `TTL + P` after the update and so outside `[TTL, TTL + P)`. -/
theorem tolerance_window_counterexample :
    (¬ ∃ t, 7 * Second ≤ t ∧ t < 8 * Second ∧
      (GetSessionData (scenarioAt t) "k").1 = (none, some GoError.ErrSessionNotFound)) ∧
    (scenarioAt (7 * Second)).sessions.lookup "k" = some ⟨some [("a", "1")], 2 * Second⟩ ∧
    (scenarioAt (8 * Second)).sessions.lookup "k" = none ∧
    ¬ (8 * Second - 2 * Second < TTL + P) := by
  refine ⟨?_, ?_, ?_, by decide⟩
  · rintro ⟨t, -, h2, h3⟩
    have hl := lookup_scenarioAt t
    rw [if_neg (by omega)] at hl
    unfold GetSessionData at h3
    rw [hl] at h3
    simp at h3
  · rw [lookup_scenarioAt, if_neg (by decide)]
  · rw [lookup_scenarioAt, if_pos (by decide)]

/-- C4, amended. With passes of the cleaner at the multiples of `P`, an entry last updated
at `T` and not written again is in the table after the passes up to any time before
`removalTime T`, the first multiple of `P` that is more than `TTL` after `T`, and not in
the table after the passes up to any time from `removalTime T` on; measured from `T`
that time lies in the half-open interval `(TTL, TTL + P]`. In the example scenario
(TTL = 5s, P = 1s, created at 0, updated at 2s) the read of "k" succeeds at every time
in [2s, 8s) and returns `ErrSessionNotFound` at every time from 8s on. -/
theorem tolerance_window :
    (∀ (m : SessionManager V) (k : String) (s : Session V) (hi : Int),
      m.sessions.lookup k = some s →
      ((startCleaning (ticksBetween s.LastUpdated hi) m).sessions.lookup k =
          if removalTime s.LastUpdated ≤ hi then none else some s) ∧
      TTL < removalTime s.LastUpdated - s.LastUpdated ∧
      removalTime s.LastUpdated - s.LastUpdated ≤ TTL + P) ∧
    (∀ t, 2 * Second ≤ t → t < 8 * Second →
      (GetSessionData (scenarioAt t) "k").1 = (some [("a", "1")], none)) ∧
    (∀ t, 8 * Second ≤ t →
      (GetSessionData (scenarioAt t) "k").1 = (none, some GoError.ErrSessionNotFound)) := by
  refine ⟨?_, ?_, ?_⟩
  · intro m k s hi hk
    exact ⟨lookup_startCleaning_ticksBetween m k s hi hk, removalTime_bounds s.LastUpdated⟩
  · intro t _ h2
    unfold GetSessionData
    rw [lookup_scenarioAt, if_neg (by omega)]
  · intro t h
    unfold GetSessionData
    rw [lookup_scenarioAt, if_pos h]

/-- C4, amended, at an entry last updated at 2s + 1ns: the passes up to 7s + 999999999ns
keep it and the passes up to 8s remove it. -/
theorem tolerance_window_witness :
    ((startCleaning (ticksBetween (2 * Second + 1) (8 * Second))
      (⟨AList.singleton "k" ⟨some [], 2 * Second + 1⟩⟩ : SessionManager String)).sessions.lookup "k"
      = if removalTime (2 * Second + 1) ≤ 8 * Second then none
        else some ⟨some [], 2 * Second + 1⟩) ∧
    (GetSessionData (scenarioAt (7 * Second + 999999999)) "k").1 = (some [("a", "1")], none) ∧
    (GetSessionData (scenarioAt (8 * Second)) "k").1 = (none, some GoError.ErrSessionNotFound) :=
  ⟨((tolerance_window (V := String)).1
      (⟨AList.singleton "k" ⟨some [], 2 * Second + 1⟩⟩ : SessionManager String) "k"
      ⟨some [], 2 * Second + 1⟩ (8 * Second) (by decide)).1,
   (tolerance_window (V := String)).2.1 (7 * Second + 999999999) (by decide) (by decide),
   (tolerance_window (V := String)).2.2 (8 * Second) (by decide)⟩

/-! ## One update racing one pass of the cleaner -/

/-- When the scheduler lets the call of `UpdateSessionData` run all its statements in a row,
the interleaving model gives the result and the table of `UpdateSessionData`. -/
theorem runSchedule_updater_alone (m : SessionManager V) (k : String) (d : Data V) (now : Int) :
    (runSchedule k d (Config.init m)
        [(Thread.updater, now), (Thread.updater, now), (Thread.updater, now),
         (Thread.updater, now)]).map (fun c => (c.upd, c.m, c.mu))
      = if k ∈ m.sessions then
          some (UpdatePc.returned (UpdateSessionData m k d now).1, (UpdateSessionData m k d now).2,
            none)
        else none := by
  by_cases h : k ∈ m.sessions
  · have hc := (updateCheck_iff m k).2 h
    simp [runSchedule, step, stepUpdate, Config.init, UpdateSessionData, hc, h]
  · have hc : ¬ updateCheck m k = true := fun hc => h ((updateCheck_iff m k).1 hc)
    simp [runSchedule, step, stepUpdate, Config.init, hc, h]

/-- C1 fails on the code. The table holds "k", last updated at 0. The call
`UpdateSessionData("k", d)` reads the map and finds "k" before it takes the mutex; then
the cleaner takes the mutex, runs its pass at 6s, which removes "k", and releases the
mutex, while the update has neither completed nor returned; then the update takes the
mutex, writes, and returns nil: the removed entry is back in the table. -/
theorem update_reinserts_reclaimed_entry :
    (runSchedule "k" (some [("a", "1")])
        (Config.init (⟨AList.singleton "k" ⟨some [], 0⟩⟩ : SessionManager String))
        [(Thread.updater, 6 * Second), (Thread.cleaner, 6 * Second), (Thread.cleaner, 6 * Second),
         (Thread.cleaner, 6 * Second)]).map
        (fun c => (c.m.sessions.lookup "k", c.upd, c.cln, c.mu))
      = some (none, UpdatePc.lock, CleanPc.done, none) ∧
    (runSchedule "k" (some [("a", "1")])
        (Config.init (⟨AList.singleton "k" ⟨some [], 0⟩⟩ : SessionManager String))
        [(Thread.updater, 6 * Second), (Thread.cleaner, 6 * Second), (Thread.cleaner, 6 * Second),
         (Thread.cleaner, 6 * Second), (Thread.updater, 6 * Second), (Thread.updater, 6 * Second),
         (Thread.updater, 6 * Second)]).map
        (fun c => (c.m.sessions.lookup "k", c.upd, c.cln, c.mu))
      = some (some ⟨some [("a", "1")], 6 * Second⟩, UpdatePc.returned none, CleanPc.done, none) := by
  constructor <;> decide

end SessionCleaner

namespace LimitServiceTime

/-! ## The free-tier limiter -/

/-- A premium user: the process runs, the call returns true, the record is unchanged. -/
theorem HandleRequest_premium (ticks : Nat) (u : User) (h : u.IsPremium = true) :
    HandleRequest ticks u = ⟨true, true, u⟩ := by
  unfold HandleRequest
  rw [if_pos h]

/-- A free user who has used up the time on entry: the call returns false and starts nothing. -/
theorem HandleRequest_exhausted (ticks : Nat) (u : User) (h : u.IsPremium = false)
    (hused : u.TimeUsed ≥ MAX_TIME) : HandleRequest ticks u = ⟨false, false, u⟩ := by
  unfold HandleRequest
  rw [if_neg (by simp [h]), if_pos hused]

/-- The loop stops at the first tick that takes `TimeUsed` above `MAX_TIME`, so from an
int64 value that is at most `MAX_TIME` it leaves at most `MAX_TIME + 1`. -/
theorem waitLoop_TimeUsed_le (ticks : Nat) (u : User) (hlo : -(2 ^ 63) ≤ u.TimeUsed)
    (h : u.TimeUsed ≤ MAX_TIME) :
    (waitLoop ticks u).2.TimeUsed ≤ MAX_TIME + 1 := by
  induction ticks generalizing u with
  | zero =>
    simp only [waitLoop]
    omega
  | succ n ih =>
    have hw : wrapInt64 (u.TimeUsed + 1) = u.TimeUsed + 1 := by
      unfold wrapInt64 MAX_TIME at *
      omega
    simp only [waitLoop]
    split_ifs with hgt
    · simp only [hw]
      omega
    · exact ih _ (by simp only [hw]; omega) (by simp only; omega)

/-- C10 fails on the code. A free user with `TimeUsed = 0` asks for a process that outlasts
eleven ticks: the tenth tick makes `TimeUsed` 10, which the test `TimeUsed > MAX_TIME`
lets pass, and the eleventh makes it 11; the call returns false and leaves `TimeUsed = 11`,
above `MAX_TIME`. The same happens from `TimeUsed = 9` with a process that outlasts two ticks. -/
theorem HandleRequest_leaves_TimeUsed_above_MAX_TIME :
    HandleRequest 11 ⟨1, false, 0⟩ = ⟨false, true, ⟨1, false, 11⟩⟩ ∧
    (HandleRequest 11 ⟨1, false, 0⟩).user.TimeUsed > MAX_TIME ∧
    HandleRequest 2 ⟨1, false, 9⟩ = ⟨false, true, ⟨1, false, 11⟩⟩ := by
  refine ⟨?_, ?_, ?_⟩ <;> decide

end LimitServiceTime
